import Mathlib

/-!
Shallow embedding of the message-flow core of `azure-service-bus-node`:
the credit manager (`src/creditManager.ts`), the settlement machinery of
`InternalBrokeredMessage` (`src/internalBrokeredMessage.ts`), the renew-lock
byte reordering and the management request bookkeeping of
`AmqpRequestClient` (`src/topic.ts`), the sender (`src/sender.ts`), the
brokered-message/AMQP field translation, `parseConnectionString`
(`src/utility.ts`), the connection pool (`ClientManager`, found in
`src/creditManager.spec.ts`), and the lock-renewal scheduler
(`Receiver._scheduleRenewal`, found in `src/internalBrokeredMessage.spec.ts`).
-/

namespace ServiceBus

/-- Error names from `src/errors.ts` (the `ErrorNames` table). -/
inductive ErrName where
  | linkDetach
  | linkNotFound
  | linkCreditManagerMissing
  | msgLockRenewalTimeout
  | msgLockRenewalFailure
  | msgSettleFailure
  | internalUnknown
  | internalRequestTimeout
  | internalRequestFailure
  | internalRequestTerminated
  | internalOrphanedResponse
  | sendTimeout
  | sendRejected
  | sendDisposed
  | amqpInternalError
  | amqpNotFound
  | amqpUnauthorizedAccess
  | amqpDecodeError
  | amqpResourceLimitExceeded
  | amqpNotAllowed
  | amqpInvalidField
  | amqpNotImplemented
  | amqpResourceLocked
  | amqpPreconditionFailed
  | amqpResourceDeleted
  | amqpIllegalState
  | amqpFrameSizeTooSmall
  | amqpUnknown
  deriving DecidableEq, Repr

/-!
## Credit manager (`src/creditManager.ts`)

`CreditManager` holds a counter `_additionalCredits`, a `Set` of pending
lock tokens and an optional receiver link.  The link is modelled by its
observable surface (`state() == 'attached'`, `linkCredit`, `addCredits`);
`creditsAdded` is a ghost log of the arguments passed to `addCredits`, and
`increments` / `settleCalls` are ghost instrumentation counting the
`_additionalCredits++` operations and the calls to `settleMessage`.
-/

/-- Observable state of the bound `ReceiverLink`. -/
structure LinkState where
  attached : Bool
  linkCredit : Nat
  /-- Ghost log: arguments of the `addCredits` calls issued so far. -/
  creditsAdded : List Nat
  deriving DecidableEq, Repr

/-- State of a `CreditManager` instance. -/
structure CreditMgr where
  additionalCredits : Nat
  /-- Embeds `_pendingSettles : Set<String>`; elements are kept without duplicates
  because insertion is guarded by membership, as in the source. -/
  pendingSettles : List String
  link : Option LinkState
  threshold : Nat
  /-- Ghost: how many times `_additionalCredits++` has executed. -/
  increments : Nat
  /-- Ghost: the lock tokens passed to `settleMessage`, in order. -/
  settleCalls : List String
  deriving DecidableEq, Repr

/-- Embeds `CreditManager.refreshCredits`.  Returns the post state together with the
error thrown, if any (`Link.NotFound` when no link is bound). -/
def refreshCredits (cm : CreditMgr) : CreditMgr × Option ErrName :=
  match cm.link with
  | none => (cm, some .linkNotFound)
  | some l =>
    if l.attached = false then (cm, none)
    else if 0 < cm.additionalCredits ∧ l.linkCredit < cm.threshold then
      ({ cm with
          link := some { l with
            linkCredit := l.linkCredit + cm.additionalCredits,
            creditsAdded := l.creditsAdded ++ [cm.additionalCredits] },
          additionalCredits := 0 }, none)
    else (cm, none)

/-- Embeds `CreditManager.scheduleMessageSettle`. -/
def scheduleMessageSettle (cm : CreditMgr) (lockToken : String) :
    CreditMgr × Option ErrName :=
  if lockToken ∈ cm.pendingSettles then (cm, none)
  else
    refreshCredits
      { cm with
          additionalCredits := cm.additionalCredits + 1,
          increments := cm.increments + 1,
          pendingSettles := lockToken :: cm.pendingSettles }

/-- Embeds `CreditManager.settleMessage`. -/
def settleMessage (cm : CreditMgr) (lockToken : String) :
    CreditMgr × Option ErrName :=
  let cm0 := { cm with settleCalls := cm.settleCalls ++ [lockToken] }
  if lockToken ∈ cm0.pendingSettles then
    ({ cm0 with pendingSettles := cm0.pendingSettles.erase lockToken }, none)
  else
    refreshCredits
      { cm0 with
          additionalCredits := cm0.additionalCredits + 1,
          increments := cm0.increments + 1 }

/-- State after `scheduleMessageSettle`, error discarded. -/
def schedule1 (lockToken : String) (cm : CreditMgr) : CreditMgr :=
  (scheduleMessageSettle cm lockToken).1

lemma refreshCredits_pendingSettles (cm : CreditMgr) :
    (refreshCredits cm).1.pendingSettles = cm.pendingSettles := by
  unfold refreshCredits
  cases cm.link with
  | none => rfl
  | some l =>
    simp only
    split
    · rfl
    · split <;> rfl

lemma refreshCredits_increments (cm : CreditMgr) :
    (refreshCredits cm).1.increments = cm.increments := by
  unfold refreshCredits
  cases cm.link with
  | none => rfl
  | some l =>
    simp only
    split
    · rfl
    · split <;> rfl

lemma refreshCredits_settleCalls (cm : CreditMgr) :
    (refreshCredits cm).1.settleCalls = cm.settleCalls := by
  unfold refreshCredits
  cases cm.link with
  | none => rfl
  | some l =>
    simp only
    split
    · rfl
    · split <;> rfl

lemma schedule1_of_not_mem {cm : CreditMgr} {t : String}
    (h : t ∉ cm.pendingSettles) :
    (schedule1 t cm).pendingSettles = t :: cm.pendingSettles ∧
    (schedule1 t cm).increments = cm.increments + 1 := by
  unfold schedule1 scheduleMessageSettle
  rw [if_neg h]
  refine ⟨?_, ?_⟩
  · rw [refreshCredits_pendingSettles]
  · rw [refreshCredits_increments]

lemma schedule1_of_mem {cm : CreditMgr} {t : String}
    (h : t ∈ cm.pendingSettles) : schedule1 t cm = cm := by
  unfold schedule1 scheduleMessageSettle
  rw [if_pos h]

/-- After `n` further (no-op) schedules the state is unchanged. -/
lemma schedule1_iterate_of_mem {cm : CreditMgr} {t : String}
    (h : t ∈ cm.pendingSettles) (n : Nat) : (schedule1 t)^[n] cm = cm := by
  induction n with
  | zero => rfl
  | succ n ih =>
    rw [Function.iterate_succ_apply, schedule1_of_mem h, ih]

/-- A concrete credit-manager state: attached link, zero credit, threshold 1. -/
def cmSample : CreditMgr :=
  { additionalCredits := 0, pendingSettles := [], link := some ⟨true, 0, []⟩,
    threshold := 1, increments := 0, settleCalls := [] }

/-- C1: across one or more `scheduleMessageSettle(t)` calls followed by a
single `settleMessage(t)`, the additional-credits counter is incremented
exactly once for `t`: repeated scheduling while `t` is pending is a no-op,
and the final settle removes `t` from the pending set without another
increment. -/
theorem creditManager_settle_once (cm : CreditMgr) (t : String) (n : Nat)
    (hn : 1 ≤ n) (h : t ∉ cm.pendingSettles) :
    (schedule1 t)^[n] cm = schedule1 t cm ∧
    (settleMessage ((schedule1 t)^[n] cm) t).1.increments = cm.increments + 1 ∧
    t ∉ (settleMessage ((schedule1 t)^[n] cm) t).1.pendingSettles := by
  obtain ⟨m, rfl⟩ : ∃ m, n = m + 1 := ⟨n - 1, (Nat.succ_pred_eq_of_pos hn).symm⟩
  obtain ⟨hpend, hinc⟩ := schedule1_of_not_mem h
  have hmem : t ∈ (schedule1 t cm).pendingSettles := by
    rw [hpend]; exact List.mem_cons_self t _
  rw [Function.iterate_succ_apply, schedule1_iterate_of_mem hmem]
  have hmem0 : t ∈ ({ schedule1 t cm with
      settleCalls := (schedule1 t cm).settleCalls ++ [t] } :
        CreditMgr).pendingSettles := hmem
  refine ⟨rfl, ?_, ?_⟩
  · unfold settleMessage
    simp only [if_pos hmem0]
    exact hinc
  · unfold settleMessage
    simp only [if_pos hmem0]
    simp only [hpend, List.erase_cons_head]
    exact h

/-- Witness for `creditManager_settle_once` at a concrete state and token. -/
theorem creditManager_settle_once_witness :
    (1 ≤ 2 ∧ "tok" ∉ cmSample.pendingSettles) ∧
    ((schedule1 "tok")^[2] cmSample = schedule1 "tok" cmSample ∧
     (settleMessage ((schedule1 "tok")^[2] cmSample) "tok").1.increments =
       cmSample.increments + 1 ∧
     "tok" ∉ (settleMessage ((schedule1 "tok")^[2] cmSample) "tok").1.pendingSettles) :=
  ⟨⟨by decide, by decide⟩,
   creditManager_settle_once cmSample "tok" 2 (by decide) (by decide)⟩

/-- C6: `refreshCredits` fails with `Link.NotFound` when no link is bound,
returns silently (state unchanged) when the link is not attached, and calls
`addCredits(additional_credits)` and resets the counter exactly when
`additional_credits > 0` and `linkCredit < threshold`. -/
theorem refreshCredits_spec (cm : CreditMgr) :
    (cm.link = none → refreshCredits cm = (cm, some .linkNotFound)) ∧
    (∀ l, cm.link = some l → l.attached = false →
      refreshCredits cm = (cm, none)) ∧
    (∀ l, cm.link = some l → l.attached = true →
      (0 < cm.additionalCredits ∧ l.linkCredit < cm.threshold →
        refreshCredits cm =
          ({ cm with
              link := some { l with
                linkCredit := l.linkCredit + cm.additionalCredits,
                creditsAdded := l.creditsAdded ++ [cm.additionalCredits] },
              additionalCredits := 0 }, none)) ∧
      (¬(0 < cm.additionalCredits ∧ l.linkCredit < cm.threshold) →
        refreshCredits cm = (cm, none))) := by
  refine ⟨?_, ?_, ?_⟩
  · intro hnone
    unfold refreshCredits
    rw [hnone]
  · intro l hl hdet
    unfold refreshCredits
    rw [hl]
    simp [hdet]
  · intro l hl hatt
    constructor
    · intro hcond
      unfold refreshCredits
      rw [hl]
      simp only [hatt]
      rw [if_neg (by simp), if_pos hcond]
    · intro hcond
      unfold refreshCredits
      rw [hl]
      simp only [hatt]
      rw [if_neg (by simp), if_neg hcond]

/-- Witness for `refreshCredits_spec`: with no link bound, `refreshCredits`
fails with `Link.NotFound`. -/
theorem refreshCredits_spec_witness :
    refreshCredits { cmSample with link := none } =
      ({ cmSample with link := none }, some .linkNotFound) :=
  (refreshCredits_spec { cmSample with link := none }).1 rfl

/-!
## Message settlement (`src/internalBrokeredMessage.ts`)

`InternalBrokeredMessage._scheduleSettle` wraps the disposition call
(`accept`/`modify`/`reject`) in `settleWrap`, which checks the receiver
link state, updates `processingState`, emits `settleError` on failure,
and in a `finally` block calls `creditManager.settleMessage`.  The
disposition call itself may throw; that possibility is the
`dispositionThrows` flag.
-/

/-- Embeds `ProcessingState` from `src/types.ts`. -/
inductive PState where
  | none
  | active
  | settling
  | settled
  | settleFailed
  deriving DecidableEq, Repr

/-- Observable state of an `InternalBrokeredMessage`. -/
structure MsgState where
  processingState : PState
  /-- Whether event listeners are still registered (`removeAllListeners`
  clears them). -/
  hasListeners : Bool
  /-- Ghost: number of `settleError` events emitted. -/
  settleErrors : Nat
  lockToken : String
  deriving DecidableEq, Repr

/-- The `settleWrap` closure inside `_scheduleSettle`: `receiverAttached`
is `this._receiver.state() === 'attached'` at execution time and
`dispositionThrows` says whether the `settle()` call itself throws. -/
def settleWrap (m : MsgState) (cm : CreditMgr)
    (receiverAttached dispositionThrows : Bool) : MsgState × CreditMgr :=
  let result :=
    if receiverAttached = false ∨ dispositionThrows then
      { m with processingState := .settleFailed,
               settleErrors := m.settleErrors + 1 }
    else
      { m with processingState := .settled, hasListeners := false }
  (result, (settleMessage cm m.lockToken).1)

/-- Embeds `_scheduleSettle` proper: the guard checks, then either the immediate
call of `settleWrap` or (for `delayMs > 0`) the `Settling` transition plus
`scheduleMessageSettle` followed, when the timer fires, by `settleWrap`.
The returned value is the state after the disposition has executed, or the
error thrown synchronously by the guards. -/
def scheduleSettleRun (m : MsgState) (cm : Option CreditMgr)
    (delayPos receiverAttached dispositionThrows : Bool) :
    Except ErrName (MsgState × CreditMgr) :=
  match cm with
  | Option.none => .error .linkCreditManagerMissing
  | Option.some cm =>
    if m.processingState ≠ .active then .error .msgSettleFailure
    else if delayPos then
      let m1 := { m with processingState := .settling }
      let cm1 := (scheduleMessageSettle cm m.lockToken).1
      .ok (settleWrap m1 cm1 receiverAttached dispositionThrows)
    else .ok (settleWrap m cm receiverAttached dispositionThrows)

lemma settleMessage_settleCalls (cm : CreditMgr) (t : String) :
    (settleMessage cm t).1.settleCalls = cm.settleCalls ++ [t] := by
  unfold settleMessage
  simp only
  split
  · rfl
  · rw [refreshCredits_settleCalls]

lemma scheduleMessageSettle_settleCalls (cm : CreditMgr) (t : String) :
    (scheduleMessageSettle cm t).1.settleCalls = cm.settleCalls := by
  unfold scheduleMessageSettle
  split
  · rfl
  · rw [refreshCredits_settleCalls]

/-- C2: whenever a scheduled settlement disposition executes (immediately or
after the delay timer), a detached receiver link yields state `SettleFailed`
plus an emitted `settleError`; a successful disposition yields state
`Settled` with listeners removed; and in every outcome
`creditManager.settleMessage(lockToken)` runs exactly once. -/
theorem scheduleSettle_spec (m : MsgState) (cm : CreditMgr)
    (delayPos receiverAttached dispositionThrows : Bool)
    (hactive : m.processingState = .active) :
    ∃ m' cm', scheduleSettleRun m (some cm) delayPos receiverAttached
        dispositionThrows = .ok (m', cm') ∧
      (receiverAttached = false →
        m'.processingState = .settleFailed ∧
        m'.settleErrors = m.settleErrors + 1) ∧
      (receiverAttached = true → dispositionThrows = false →
        m'.processingState = .settled ∧ m'.hasListeners = false) ∧
      cm'.settleCalls = cm.settleCalls ++ [m.lockToken] := by
  simp only [scheduleSettleRun]
  rw [if_neg (by rw [hactive]; simp)]
  cases delayPos with
  | false =>
    refine ⟨_, _, rfl, ?_, ?_, ?_⟩
    · intro hdet
      simp [hdet]
    · intro hatt hok
      simp [hatt, hok]
    · rw [settleMessage_settleCalls]
  | true =>
    refine ⟨_, _, rfl, ?_, ?_, ?_⟩
    · intro hdet
      simp [hdet]
    · intro hatt hok
      simp [hatt, hok]
    · simp only [settleMessage_settleCalls, scheduleMessageSettle_settleCalls]

/-- Witness for `scheduleSettle_spec`: a delayed settle on a detached link
at a concrete message state. -/
theorem scheduleSettle_spec_witness :
    (MsgState.mk .active true 0 "tok").processingState = .active ∧
    ∃ m' cm', scheduleSettleRun (MsgState.mk .active true 0 "tok")
        (some cmSample) true false false = .ok (m', cm') ∧
      (false = false →
        m'.processingState = .settleFailed ∧ m'.settleErrors = 0 + 1) ∧
      (false = true → false = false →
        m'.processingState = .settled ∧ m'.hasListeners = false) ∧
      cm'.settleCalls = cmSample.settleCalls ++ ["tok"] :=
  ⟨rfl, scheduleSettle_spec (MsgState.mk .active true 0 "tok") cmSample
    true false false rfl⟩

/-!
## Renew-lock byte reordering (`AmqpRequestClient.renewLock` in `src/topic.ts`)

`renewLock` parses the lock token into 16 bytes and re-emits them as
`[b3,b2,b1,b0, b5,b4, b7,b6, b8..b15]` before formatting it back into a
UUID.  The embedding works on the byte list; out-of-range indices read 0,
matching a 16-byte input exactly.
-/

/-- The byte reordering applied by `renewLock` (indices as in the source). -/
def reorderBytes (b : List Nat) : List Nat :=
  [b.getD 3 0, b.getD 2 0, b.getD 1 0, b.getD 0 0,
   b.getD 5 0, b.getD 4 0,
   b.getD 7 0, b.getD 6 0,
   b.getD 8 0, b.getD 9 0,
   b.getD 10 0, b.getD 11 0, b.getD 12 0, b.getD 13 0, b.getD 14 0,
   b.getD 15 0]

/-- C3 counterexample: composing the reordering with itself IS the identity
permutation — applied to the 16 pairwise-distinct bytes `0..15` (which
determines the permutation), the double reorder returns the input, refuting
the claim that `reorder ∘ reorder ≠ identity`. -/
theorem reorder_double_is_identity_counterexample :
    reorderBytes (reorderBytes
        [0, 1, 2, 3, 4, 5, 6, 7, 8, 9, 10, 11, 12, 13, 14, 15]) =
      [0, 1, 2, 3, 4, 5, 6, 7, 8, 9, 10, 11, 12, 13, 14, 15] ∧
    reorderBytes (reorderBytes
        [0x12, 0x34, 0x56, 0x78, 0x9a, 0xbc, 0xde, 0xf0,
         0x11, 0x22, 0x33, 0x44, 0x55, 0x66, 0x77, 0x88]) =
      [0x12, 0x34, 0x56, 0x78, 0x9a, 0xbc, 0xde, 0xf0,
       0x11, 0x22, 0x33, 0x44, 0x55, 0x66, 0x77, 0x88] :=
  ⟨rfl, rfl⟩

/-- C3 (amended): `renewLock` emits the 16 token bytes in the order
`[3,2,1,0, 5,4, 7,6, 8,9, 10,11,12,13,14,15]`, and the reordering is an
involution: composing it with itself yields the identity on every 16-byte
token (the wire format is symmetric, not asymmetric). -/
theorem reorder_spec (b0 b1 b2 b3 b4 b5 b6 b7 b8 b9 b10 b11 b12 b13 b14
    b15 : Nat) :
    reorderBytes [b0, b1, b2, b3, b4, b5, b6, b7, b8, b9, b10, b11, b12,
        b13, b14, b15] =
      [b3, b2, b1, b0, b5, b4, b7, b6, b8, b9, b10, b11, b12, b13, b14,
        b15] ∧
    reorderBytes (reorderBytes [b0, b1, b2, b3, b4, b5, b6, b7, b8, b9,
        b10, b11, b12, b13, b14, b15]) =
      [b0, b1, b2, b3, b4, b5, b6, b7, b8, b9, b10, b11, b12, b13, b14,
        b15] :=
  ⟨rfl, rfl⟩

/-!
## Management request bookkeeping (`AmqpRequestClient._sendRequest`,
`_listenToResponses`, `_terminateRequests` in `src/topic.ts`)

For one admitted request (one correlation id) we track its membership in
`_pendingRequests`, `_requestTimeouts` and `_requestTerminations`, the
liveness of its timeout timer (cleared together with the `_requestTimeouts`
entry by `cleanupRequest`), and the settled outcome of the `result`
promise.  The events that can touch the request are the arrival of the
correlated response (with its status code), the firing of the timeout
timer, and a receiver `detached` running the terminators.
-/

/-- How the `result` promise of `_sendRequest` settles. -/
inductive ReqOutcome where
  | resolved
  | requestFailure
  | requestTimeout
  | requestTerminated
  deriving DecidableEq, Repr

/-- Bookkeeping state for one admitted management request. -/
structure ReqState where
  outcome : Option ReqOutcome
  inPending : Bool
  /-- Entry in `_requestTimeouts`; its timer is cleared exactly when the
  entry is removed (`cleanupRequest` does both). -/
  inTimeouts : Bool
  inTerminations : Bool
  deriving DecidableEq, Repr

/-- State right after `_sendRequest` installs the three map entries. -/
def reqInit : ReqState :=
  { outcome := none, inPending := true, inTimeouts := true,
    inTerminations := true }

/-- The events that can affect an admitted request. -/
inductive ReqEv where
  /-- A response with this correlation id arrives (`_listenToResponses`). -/
  | respond (statusCode : Nat)
  /-- The per-request timeout timer fires. -/
  | timerFire
  /-- The response receiver detaches (`_terminateRequests`). -/
  | detach
  deriving DecidableEq, Repr

/-- One event against the request's bookkeeping.  A response for an id no
longer in `_pendingRequests` is orphaned and leaves the request alone; a
cleared timer cannot fire; terminators removed by `cleanupRequest` are not
run by `_terminateRequests`. -/
def reqStep (s : ReqState) : ReqEv → ReqState
  | .respond status =>
    if s.inPending then
      { outcome := some (if 200 ≤ status ∧ status < 300 then .resolved
          else .requestFailure),
        inPending := false, inTimeouts := false, inTerminations := false }
    else s
  | .timerFire =>
    if s.inTimeouts then
      { outcome := some .requestTimeout,
        inPending := false, inTimeouts := false, inTerminations := false }
    else s
  | .detach =>
    if s.inTerminations then
      { outcome := some .requestTerminated,
        inPending := false, inTimeouts := false, inTerminations := false }
    else s

/-- Run a sequence of events from a state. -/
def reqRun (s : ReqState) : List ReqEv → ReqState
  | [] => s
  | e :: rest => reqRun (reqStep s e) rest

/-- The outcome produced by the first event to reach the request. -/
def firstOutcome : ReqEv → ReqOutcome
  | .respond status =>
    if 200 ≤ status ∧ status < 300 then .resolved else .requestFailure
  | .timerFire => .requestTimeout
  | .detach => .requestTerminated

/-- A settled request: outcome fixed, all three map entries removed. -/
def reqSettled (o : ReqOutcome) : ReqState :=
  { outcome := some o, inPending := false, inTimeouts := false,
    inTerminations := false }

lemma reqStep_settled (o : ReqOutcome) (e : ReqEv) :
    reqStep (reqSettled o) e = reqSettled o := by
  cases e <;> rfl

lemma reqRun_settled (o : ReqOutcome) (evs : List ReqEv) :
    reqRun (reqSettled o) evs = reqSettled o := by
  induction evs with
  | nil => rfl
  | cons e rest ih => rw [reqRun, reqStep_settled, ih]

lemma reqStep_init (e : ReqEv) :
    reqStep reqInit e = reqSettled (firstOutcome e) := by
  cases e with
  | respond status =>
    simp only [reqStep, reqInit, if_pos]
    rfl
  | timerFire => rfl
  | detach => rfl

/-- C8: for an admitted management request, the first event — correlated
response (resolving on 2xx, rejecting with `RequestFailure` otherwise),
timeout firing (`RequestTimeout`), or receiver detach (`RequestTerminated`)
— settles the request, removes its entries from all three maps, and every
later event leaves the settled state untouched, so exactly one of the three
outcomes fires. -/
theorem requestLifecycle_spec (e : ReqEv) (rest : List ReqEv) :
    reqRun reqInit (e :: rest) = reqSettled (firstOutcome e) := by
  rw [reqRun, reqStep_init, reqRun_settled]

/-!
## Sender (`src/sender.ts`) and the AMQP error mapper (`src/errors.ts`)
-/

/-- Shape of a transport error as inspected by `wrapError`: either an error
whose `name` starts with `ServiceBus:` (a known error), or a two-element
descriptor list whose head is a symbol carrying an `amqp:*` value, or
anything else. -/
inductive WireError where
  | known (name : ErrName)
  | amqpDescribed (symbol : String)
  | other
  deriving DecidableEq, Repr

/-- Embeds `wrapError` from `src/errors.ts`. -/
def wrapError : WireError → ErrName
  | .known n => n
  | .amqpDescribed sym =>
    if sym = "amqp:internal-error" then .amqpInternalError
    else if sym = "amqp:not-found" then .amqpNotFound
    else if sym = "amqp:unauthorized-access" then .amqpUnauthorizedAccess
    else if sym = "amqp:decode-error" then .amqpDecodeError
    else if sym = "amqp:resource-limit-exceeded" then
      .amqpResourceLimitExceeded
    else if sym = "amqp:not-allowed" then .amqpNotAllowed
    else if sym = "amqp:invalid-field" then .amqpInvalidField
    else if sym = "amqp:not-implemented" then .amqpNotImplemented
    else if sym = "amqp:resource-locked" then .amqpResourceLocked
    else if sym = "amqp:precondition-failed" then .amqpPreconditionFailed
    else if sym = "amqp:resource-deleted" then .amqpResourceDeleted
    else if sym = "amqp:illegal-state" then .amqpIllegalState
    else if sym = "amqp:frame-size-too-small" then .amqpFrameSizeTooSmall
    else .amqpUnknown
  | .other => .internalUnknown

/-- The descriptor marking a rejected delivery disposition. -/
def AMQP_REJECTED_DESCRIPTOR : Nat := 0x25

/-- How the race between the underlying `sender.send` and the send-timeout
timer comes out: the timer fires first, the transport send fails, or the
send settles and returns a delivery disposition with this descriptor. -/
inductive SendRace where
  | timedOut
  | transportError (e : WireError)
  | settled (descriptor : Nat)
  deriving DecidableEq, Repr

/-- Embeds `Sender.send`: the disposed guard, the timeout race, the transport
error wrapping, and the rejected-disposition check. -/
def senderSend (disposed : Bool) (race : SendRace) : Except ErrName Unit :=
  if disposed then .error .sendDisposed
  else
    match race with
    | .timedOut => .error .sendTimeout
    | .transportError e => .error (wrapError e)
    | .settled descriptor =>
      if descriptor = AMQP_REJECTED_DESCRIPTOR then .error .sendRejected
      else .ok ()

/-- C7: `send` rejects `Send.Disposed` when the sender is disposed, rejects
`Send.Timeout` when the transport send has not settled within `timeoutMs`,
rejects `Send.Rejected` when the returned disposition's descriptor is
`0x25`, and otherwise (a disposition with any other descriptor) resolves. -/
theorem senderSend_spec (disposed : Bool) (race : SendRace) :
    (disposed = true → senderSend disposed race = .error .sendDisposed) ∧
    (disposed = false → race = .timedOut →
      senderSend disposed race = .error .sendTimeout) ∧
    (disposed = false → race = .settled AMQP_REJECTED_DESCRIPTOR →
      senderSend disposed race = .error .sendRejected) ∧
    (disposed = false → ∀ d, d ≠ AMQP_REJECTED_DESCRIPTOR →
      race = .settled d → senderSend disposed race = .ok ()) := by
  refine ⟨?_, ?_, ?_, ?_⟩
  · intro hd
    simp [senderSend, hd]
  · intro hd hr
    simp [senderSend, hd, hr]
  · intro hd hr
    simp [senderSend, hd, hr]
  · intro hd d hdesc hr
    simp [senderSend, hd, hr, hdesc]

/-- Witness for `senderSend_spec`: a live sender whose send settles with an
accepted (`0x24`) disposition resolves. -/
theorem senderSend_spec_witness :
    senderSend false (.settled 0x24) = .ok () :=
  (senderSend_spec false (.settled 0x24)).2.2.2 rfl 0x24 (by decide) rfl

/-!
## Brokered-message / AMQP translation
(`Sender._brokeredMessageToAmqpMessage` in `src/sender.ts` and the
`InternalBrokeredMessage` constructor in `src/internalBrokeredMessage.ts`)

Field values are JavaScript values; `Option` encodes presence
(`none` = `undefined`, so `setIfDefined` is an `Option` copy).  The
inbound constructor's `_amqpMessage.body || null` needs JS truthiness.
-/

/-- A JavaScript value, as far as the translation observes it. -/
inductive JsVal where
  | vNull
  | vBool (b : Bool)
  | vNum (n : Int)
  | vStr (s : String)
  | vDate (epochMs : Int)
  | vObj (fields : List (String × Int))
  deriving DecidableEq, Repr

/-- JS truthiness of a `JsVal` (`0`, `''`, `false`, `null` are falsy). -/
def JsVal.truthy : JsVal → Bool
  | .vNull => false
  | .vBool b => b
  | .vNum n => n != 0
  | .vStr s => s != ""
  | .vDate _ => true
  | .vObj _ => true

/-- Embeds `a || b` on JS values. -/
def jsOr (a b : JsVal) : JsVal := if a.truthy then a else b

/-- The user-visible fields of a `BrokeredMessage` that take part in the
outbound translation (`src/brokeredMessage.ts`).  `none` = the field was
never set (`undefined`). -/
structure BrokeredMsg where
  body : JsVal
  properties : List (String × JsVal)
  messageId : Option String
  /-- The `to` field of the message (`to` is reserved in Lean). -/
  toAddr : Option String
  label : Option String
  replyTo : Option String
  correlationId : Option String
  contentType : Option String
  sessionId : Option String
  replyToSessionId : Option String
  partitionKey : Option String
  enqueuedTimeUtc : Option Int
  enqueuedSequenceNumber : Option Int
  scheduledEnqueueTimeUtc : Option Int
  deriving DecidableEq, Repr

/-- The AMQP message shape produced and consumed by the translation
(`src/internalTypes.ts`).  Field names flattened: `prop_*` for
`properties.*`, `ann_*` for `messageAnnotations['x-opt-*']`,
`header_*` for `header.*`. -/
structure AmqpMsg where
  body : JsVal
  header_ttl : Option Int
  header_deliveryCount : Option Int
  ann_enqueuedTime : Option Int
  ann_sequenceNumber : Option Int
  ann_partitionKey : Option String
  ann_lockedUntil : Option Int
  ann_scheduledEnqueueTime : Option Int
  prop_messageId : Option String
  prop_to : Option String
  prop_subject : Option String
  prop_replyTo : Option String
  prop_correlationId : Option String
  prop_contentType : Option String
  prop_absoluteExpiryTime : Option Int
  prop_groupId : Option String
  prop_replyToGroupId : Option String
  applicationProperties : List (String × JsVal)
  deriving DecidableEq, Repr

/-- Embeds `Sender._brokeredMessageToAmqpMessage`: body, `messageId`, the
`setIfDefined` properties and `x-opt-*` annotations, and the user
properties map. -/
def brokeredToAmqp (m : BrokeredMsg) : AmqpMsg :=
  { body := m.body,
    header_ttl := none,
    header_deliveryCount := none,
    ann_partitionKey := m.partitionKey,
    ann_enqueuedTime := m.enqueuedTimeUtc,
    ann_sequenceNumber := m.enqueuedSequenceNumber,
    ann_scheduledEnqueueTime := m.scheduledEnqueueTimeUtc,
    ann_lockedUntil := none,
    prop_messageId := m.messageId,
    prop_to := m.toAddr,
    prop_subject := m.label,
    prop_replyTo := m.replyTo,
    prop_correlationId := m.correlationId,
    prop_contentType := m.contentType,
    prop_absoluteExpiryTime := none,
    prop_groupId := m.sessionId,
    prop_replyToGroupId := m.replyToSessionId,
    applicationProperties := m.properties }

/-- The field initialization in the `InternalBrokeredMessage` constructor:
which brokered fields an inbound delivery reconstructs from the AMQP
message.  Note that `x-opt-scheduled-enqueue-time` is never read, and the
body passes through `_amqpMessage.body || null`. -/
def amqpToBrokered (a : AmqpMsg) : BrokeredMsg :=
  { body := jsOr a.body .vNull,
    properties := a.applicationProperties,
    messageId := a.prop_messageId,
    toAddr := a.prop_to,
    label := a.prop_subject,
    replyTo := a.prop_replyTo,
    correlationId := a.prop_correlationId,
    contentType := a.prop_contentType,
    sessionId := a.prop_groupId,
    replyToSessionId := a.prop_replyToGroupId,
    partitionKey := a.ann_partitionKey,
    enqueuedTimeUtc := a.ann_enqueuedTime,
    enqueuedSequenceNumber := a.ann_sequenceNumber,
    scheduledEnqueueTimeUtc := none }

/-- Outbound translation followed by inbound reconstruction. -/
def roundTrip (m : BrokeredMsg) : BrokeredMsg := amqpToBrokered (brokeredToAmqp m)

/-- A concrete message whose `scheduledEnqueueTimeUtc` is set. -/
def msgWithSchedule : BrokeredMsg :=
  { body := .vStr "hello",
    properties := [("k", .vNum 1)],
    messageId := some "m1",
    toAddr := some "t",
    label := some "l",
    replyTo := some "r",
    correlationId := some "c",
    contentType := some "ct",
    sessionId := some "s",
    replyToSessionId := some "rs",
    partitionKey := some "p",
    enqueuedTimeUtc := some 1000,
    enqueuedSequenceNumber := some 7,
    scheduledEnqueueTimeUtc := some 123456 }

/-- The message of `msgWithSchedule` with a falsy (zero) body and no
scheduled enqueue time. -/
def msgZeroBody : BrokeredMsg :=
  { msgWithSchedule with body := .vNum 0,
                         scheduledEnqueueTimeUtc := none }

/-- C5 counterexample: two listed fields fail the round trip.
`scheduledEnqueueTimeUtc` is written to `x-opt-scheduled-enqueue-time` by
the outbound translation, but the inbound constructor never reads that
annotation, so the reconstructed message has none; and a falsy body (the
number `0`) comes back as `null`, because the constructor runs
`_amqpMessage.body || null`. -/
theorem roundTrip_field_counterexample :
    ((brokeredToAmqp msgWithSchedule).ann_scheduledEnqueueTime =
      some 123456 ∧
    (roundTrip msgWithSchedule).scheduledEnqueueTimeUtc = none ∧
    (roundTrip msgWithSchedule).scheduledEnqueueTimeUtc ≠
      msgWithSchedule.scheduledEnqueueTimeUtc) ∧
    ((brokeredToAmqp msgZeroBody).body = .vNum 0 ∧
    (roundTrip msgZeroBody).body = .vNull ∧
    (roundTrip msgZeroBody).body ≠ msgZeroBody.body) := by
  refine ⟨⟨rfl, rfl, by decide⟩, rfl, rfl, by decide⟩

/-- C5 (amended): every §6 outbound field except `scheduledEnqueueTimeUtc`
round-trips unchanged through the outbound translation and the inbound
reconstruction; the body round-trips provided it is JS-truthy (a falsy body
is normalized to `null` by `_amqpMessage.body || null`), while
`scheduledEnqueueTimeUtc` always comes back undefined. -/
theorem roundTrip_spec (m : BrokeredMsg) :
    (m.body.truthy = true → (roundTrip m).body = m.body) ∧
    (roundTrip m).properties = m.properties ∧
    (roundTrip m).messageId = m.messageId ∧
    (roundTrip m).toAddr = m.toAddr ∧
    (roundTrip m).label = m.label ∧
    (roundTrip m).replyTo = m.replyTo ∧
    (roundTrip m).correlationId = m.correlationId ∧
    (roundTrip m).contentType = m.contentType ∧
    (roundTrip m).sessionId = m.sessionId ∧
    (roundTrip m).replyToSessionId = m.replyToSessionId ∧
    (roundTrip m).partitionKey = m.partitionKey ∧
    (roundTrip m).enqueuedTimeUtc = m.enqueuedTimeUtc ∧
    (roundTrip m).enqueuedSequenceNumber = m.enqueuedSequenceNumber ∧
    (roundTrip m).scheduledEnqueueTimeUtc = none := by
  refine ⟨?_, rfl, rfl, rfl, rfl, rfl, rfl, rfl, rfl, rfl, rfl, rfl, rfl,
    rfl⟩
  intro htruthy
  simp [roundTrip, amqpToBrokered, brokeredToAmqp, jsOr, htruthy]

/-- Witness for `roundTrip_spec` at a concrete truthy-bodied message. -/
theorem roundTrip_spec_witness :
    msgWithSchedule.body.truthy = true ∧
    (roundTrip msgWithSchedule).body = msgWithSchedule.body :=
  ⟨by decide, (roundTrip_spec msgWithSchedule).1 (by decide)⟩

/-!
## `parseConnectionString` (`src/utility.ts`)

The connection string is a JS string; the embedding works on its character
list.  `split(';')` is `splitSemi`, `indexOf('=')` is `findIdx?`, the two
`substring` calls are `take`/`drop` (for a part with no `'='`,
`indexOf` returns `-1`, `substring(0, -1)` is empty and `substring(0)` is
the whole part), and the `reduce`/`Object.assign` accumulation is a
last-wins keyed lookup.
-/

/-- Embeds `connectionString.split(';')` on the character list. -/
def splitSemi : List Char → List (List Char)
  | [] => [[]]
  | c :: rest =>
    if c = ';' then [] :: splitSemi rest
    else
      match splitSemi rest with
      | [] => [[c]]
      | g :: gs => (c :: g) :: gs

/-- One part mapped to `[key, value]`: split at the first `'='`. -/
def parseKV (part : List Char) : List Char × List Char :=
  match part.findIdx? (· = '=') with
  | some i => (part.take i, part.drop (i + 1))
  | none => ([], part)

/-- Embeds `parseConnectionString`, before the `Object.assign` accumulation. -/
def parseConnectionString (cs : List Char) : List (List Char × List Char) :=
  (splitSemi cs).map parseKV

/-- The `reduce`/`Object.assign` step observed through one key: the value
of the last pair carrying that key. -/
def lookupLast (k : List Char) (ps : List (List Char × List Char)) :
    Option (List Char) :=
  ps.foldl (fun acc p => if p.1 = k then some p.2 else acc) none

lemma findIdx?_eq_append {k : List Char} (v : List Char)
    (hk : '=' ∉ k) :
    (k ++ '=' :: v).findIdx? (· = '=') = some k.length := by
  induction k with
  | nil => simp [List.findIdx?_cons]
  | cons c k ih =>
    have hc : c ≠ '=' := fun h => hk (h ▸ List.mem_cons_self c k)
    have hk' : '=' ∉ k := fun h => hk (List.mem_cons_of_mem c h)
    simp [List.findIdx?_cons, hc, ih hk']

/-- Splitting a part of the form `key=value` at the first `'='` returns the
key and the whole remainder, `'='` characters in the value included. -/
lemma parseKV_eq {k : List Char} (v : List Char) (hk : '=' ∉ k) :
    parseKV (k ++ '=' :: v) = (k, v) := by
  unfold parseKV
  rw [findIdx?_eq_append v hk]
  simp only
  refine Prod.ext ?_ ?_
  · simp only
    rw [List.take_left]
  · simp only
    rw [← List.drop_drop, List.drop_left]
    rfl

lemma splitSemi_no_semi {a : List Char} (ha : ';' ∉ a) :
    splitSemi a = [a] := by
  induction a with
  | nil => rfl
  | cons c a ih =>
    have hc : c ≠ ';' := fun h => ha (h ▸ List.mem_cons_self c a)
    have ha' : ';' ∉ a := fun h => ha (List.mem_cons_of_mem c h)
    simp [splitSemi, hc, ih ha']

lemma splitSemi_append {a : List Char} (rest : List Char)
    (ha : ';' ∉ a) :
    splitSemi (a ++ ';' :: rest) = a :: splitSemi rest := by
  induction a with
  | nil => simp [splitSemi]
  | cons c a ih =>
    have hc : c ≠ ';' := fun h => ha (h ▸ List.mem_cons_self c a)
    have ha' : ';' ∉ a := fun h => ha (List.mem_cons_of_mem c h)
    simp [splitSemi, hc, ih ha']

/-- C10: each semicolon-delimited part is split only at its first `'='` —
key before it, everything after it (further `'='` included) as the value —
so a `SharedAccessKey` value that contains or ends with `'='` survives
parsing in full. -/
theorem parseConnectionString_spec :
    (∀ k v : List Char, '=' ∉ k → parseKV (k ++ '=' :: v) = (k, v)) ∧
    (∀ e n key : List Char,
      ';' ∉ e → ';' ∉ n → ';' ∉ key →
      lookupLast "SharedAccessKey".toList
        (parseConnectionString
          ("Endpoint".toList ++ '=' :: e ++
           ';' :: "SharedAccessKeyName".toList ++ '=' :: n ++
           ';' :: "SharedAccessKey".toList ++ '=' :: key)) = some key) := by
  constructor
  · intro k v hk
    exact parseKV_eq v hk
  · intro e n key he hn hkey
    have hsemi1 : ';' ∉ "Endpoint".toList ++ '=' :: e := by
      intro hmem
      rcases List.mem_append.mp hmem with h | h
      · revert h; decide
      · rcases List.mem_cons.mp h with h | h
        · exact absurd h (by decide)
        · exact he h
    have hsemi2 : ';' ∉ "SharedAccessKeyName".toList ++ '=' :: n := by
      intro hmem
      rcases List.mem_append.mp hmem with h | h
      · revert h; decide
      · rcases List.mem_cons.mp h with h | h
        · exact absurd h (by decide)
        · exact hn h
    have hsemi3 : ';' ∉ "SharedAccessKey".toList ++ '=' :: key := by
      intro hmem
      rcases List.mem_append.mp hmem with h | h
      · revert h; decide
      · rcases List.mem_cons.mp h with h | h
        · exact absurd h (by decide)
        · exact hkey h
    unfold parseConnectionString
    rw [show "Endpoint".toList ++ '=' :: e ++
          ';' :: "SharedAccessKeyName".toList ++ '=' :: n ++
          ';' :: "SharedAccessKey".toList ++ '=' :: key =
        ("Endpoint".toList ++ '=' :: e) ++
          ';' :: (("SharedAccessKeyName".toList ++ '=' :: n) ++
            ';' :: ("SharedAccessKey".toList ++ '=' :: key)) by simp]
    rw [splitSemi_append _ hsemi1, splitSemi_append _ hsemi2,
      splitSemi_no_semi hsemi3]
    simp only [List.map_cons, List.map_nil]
    rw [parseKV_eq key (by decide)]
    unfold lookupLast
    simp [List.foldl]

/-- Witness for `parseConnectionString_spec`: a base64-style key ending in
`==` is preserved in full. -/
theorem parseConnectionString_spec_witness :
    ';' ∉ "sb://h".toList ∧ ';' ∉ "kn".toList ∧
    ';' ∉ "c2VjcmV0PT0=".toList ∧
    lookupLast "SharedAccessKey".toList
      (parseConnectionString
        ("Endpoint".toList ++ '=' :: "sb://h".toList ++
         ';' :: "SharedAccessKeyName".toList ++ '=' :: "kn".toList ++
         ';' :: "SharedAccessKey".toList ++ '=' ::
           "c2VjcmV0PT0=".toList)) = some "c2VjcmV0PT0=".toList :=
  ⟨by decide, by decide, by decide,
   parseConnectionString_spec.2 "sb://h".toList "kn".toList
     "c2VjcmV0PT0=".toList (by decide) (by decide) (by decide)⟩

/-!
## Connection pool (`ClientManager`, in `src/creditManager.spec.ts`)

An `AMQPClientState` is `{ id, amqpClient, linksCount, cleanupTimer }`.
`_getAMQPClient` scans `_clients` for the first state with
`linksCount + numLinks <= handleMax`, increments its count and sets
`cleanupTimer = null` — it never calls `clearTimeout`, so a pending timer
keeps running.  The `dispose` closure of `getAMQPClient` decrements the
count (clamped at zero) and on zero calls `_scheduleCleanup`, which arms a
new timer only while no handle is recorded.  `_cleanupClient` (the timer
body) removes and disconnects the client only if it is still pooled and
`linksCount === 0`.  The `liveTimers` field tracks every armed,
not-yet-fired timer by `(handle, client id)`; `cleanupTimer` is only the
recorded handle.  The source mutates the one found object; ids are unique
uuids, so updates and removals touch the first id match.
-/

/-- Embeds `AMQPClientState` (connection future elided, ids numbered). -/
structure AmqpClientState where
  id : Nat
  linksCount : Nat
  /-- The recorded `cleanupTimer` handle; `none` is JavaScript `null`. -/
  cleanupTimer : Option Nat
  deriving DecidableEq, Repr

/-- The `ClientManager` pool plus the scheduler's pending-timer set. -/
structure ClientMgrState where
  clients : List AmqpClientState
  nextClientId : Nat
  nextTimerId : Nat
  /-- Pending `setTimeout` callbacks of `_scheduleCleanup`: armed and not
  yet fired.  The source never cancels them. -/
  liveTimers : List (Nat × Nat)
  deriving DecidableEq, Repr

/-- Mutation of the first client with this id (JS object identity). -/
def updateFirst (cid : Nat) (f : AmqpClientState → AmqpClientState) :
    List AmqpClientState → List AmqpClientState
  | [] => []
  | c :: rest =>
    if c.id = cid then f c :: rest else c :: updateFirst cid f rest

/-- Removal of the first client with this id (`indexOf` + `splice`). -/
def removeFirst (cid : Nat) :
    List AmqpClientState → List AmqpClientState
  | [] => []
  | c :: rest => if c.id = cid then rest else c :: removeFirst cid rest

/-- Embeds the scan loop of `_getAMQPClient`: the first client that fits
the budget gets `linksCount += numLinks` and `cleanupTimer = null` (the
handle is discarded; no `clearTimeout` happens). -/
def getScan (budget n : Nat) : List AmqpClientState →
    Option (List AmqpClientState)
  | [] => none
  | c :: rest =>
    if c.linksCount + n ≤ budget then
      some ({ c with linksCount := c.linksCount + n,
                     cleanupTimer := none } :: rest)
    else (getScan budget n rest).map (c :: ·)

/-- Embeds `_getAMQPClient(numLinks)`: reuse the first fitting client or
push a fresh state with `linksCount = numLinks` and no recorded timer. -/
def getClient (budget : Nat) (m : ClientMgrState) (n : Nat) :
    ClientMgrState :=
  match getScan budget n m.clients with
  | some cs => { m with clients := cs }
  | none =>
    { m with clients := m.clients ++ [⟨m.nextClientId, n, none⟩],
             nextClientId := m.nextClientId + 1 }

/-- Embeds `_scheduleCleanup`: arm a fresh timer and record its handle,
but only while no handle is recorded (`if (!clientState.cleanupTimer)`). -/
def scheduleCleanup (m : ClientMgrState) (cid : Nat) : ClientMgrState :=
  match m.clients.find? (fun c => c.id = cid) with
  | none => m
  | some c =>
    if c.cleanupTimer = none then
      { m with
          clients := updateFirst cid
            (fun x => { x with cleanupTimer := some m.nextTimerId })
            m.clients,
          liveTimers := m.liveTimers ++ [(m.nextTimerId, cid)],
          nextTimerId := m.nextTimerId + 1 }
    else m

/-- Embeds the `dispose` closure returned by `getAMQPClient`: decrement
`linksCount` by `numLinks` clamped at zero (`Nat` subtraction), then on
zero call `_scheduleCleanup`. -/
def disposeLinks (m : ClientMgrState) (cid n : Nat) : ClientMgrState :=
  match m.clients.find? (fun c => c.id = cid) with
  | none => m
  | some c =>
    let m1 : ClientMgrState := { m with
      clients := updateFirst cid
        (fun x => { x with linksCount := c.linksCount - n }) m.clients }
    if c.linksCount - n = 0 then scheduleCleanup m1 cid else m1

/-- Embeds the firing of one pending cleanup timer: the timer is spent,
then `_cleanupClient` removes and disconnects the client only if it is
still pooled with `linksCount === 0`. -/
def fireCleanupTimer (m : ClientMgrState) (tid : Nat) : ClientMgrState :=
  match m.liveTimers.find? (fun p => p.1 = tid) with
  | none => m
  | some p =>
    let m1 :=
      { m with liveTimers := m.liveTimers.filter (fun q => q.1 ≠ tid) }
    match m1.clients.find? (fun c => c.id = p.2) with
    | none => m1
    | some c =>
      if c.linksCount = 0 then
        { m1 with clients := removeFirst p.2 m1.clients }
      else m1

/-- An event against the `ClientManager`. -/
inductive MgrEv where
  | getEv (numLinks : Nat)
  | disposeEv (clientId numLinks : Nat)
  | fireEv (timerId : Nat)
  deriving DecidableEq, Repr

/-- One event step. -/
def mgrStep (budget : Nat) (m : ClientMgrState) : MgrEv → ClientMgrState
  | .getEv n => getClient budget m n
  | .disposeEv cid n => disposeLinks m cid n
  | .fireEv tid => fireCleanupTimer m tid

/-- Run a sequence of events. -/
def mgrRun (budget : Nat) (m : ClientMgrState) :
    List MgrEv → ClientMgrState
  | [] => m
  | e :: rest => mgrRun budget (mgrStep budget m e) rest

/-- The freshly constructed `ClientManager`. -/
def mgrInit : ClientMgrState :=
  { clients := [], nextClientId := 0, nextTimerId := 0, liveTimers := [] }

/-- C4 counterexample: with `handleMax = 255`, after acquire → release →
acquire the reused client has `linksCount = 1 > 0` while the idle-cleanup
timer armed at release is still pending in `liveTimers` — `_getAMQPClient`
merely nulled the recorded handle without `clearTimeout`, refuting the
claim that a lease with positive refcount never has a running idle-cleanup
timer. -/
theorem clientManager_timer_counterexample :
    mgrRun 255 mgrInit [.getEv 1, .disposeEv 0 1, .getEv 1] =
      { clients := [⟨0, 1, none⟩], nextClientId := 1, nextTimerId := 1,
        liveTimers := [(0, 0)] } ∧
    (0 : Nat) < 1 ∧ ((0, 0) ∈ [((0 : Nat), (0 : Nat))]) :=
  ⟨by decide, by decide, by decide⟩

/-- The invariant that survives: a recorded handle is only present on an
idle client. -/
def handleInv (c : AmqpClientState) : Prop :=
  0 < c.linksCount → c.cleanupTimer = none

lemma mem_updateFirst {cid : Nat} {f : AmqpClientState → AmqpClientState}
    {l : List AmqpClientState} {c : AmqpClientState}
    (hc : c ∈ updateFirst cid f l) :
    c ∈ l ∨ ∃ a, l.find? (fun x => x.id = cid) = some a ∧ c = f a := by
  induction l with
  | nil => cases hc
  | cons b rest ih =>
    unfold updateFirst at hc
    by_cases hb : b.id = cid
    · rw [if_pos hb] at hc
      rcases List.mem_cons.mp hc with rfl | hc
      · exact Or.inr ⟨b, List.find?_cons_of_pos _ (by simp [hb]), rfl⟩
      · exact Or.inl (List.mem_cons_of_mem b hc)
    · rw [if_neg hb] at hc
      rcases List.mem_cons.mp hc with rfl | hc
      · exact Or.inl (List.mem_cons_self _ _)
      · rcases ih hc with hmem | ⟨a, hfa, rfl⟩
        · exact Or.inl (List.mem_cons_of_mem b hmem)
        · refine Or.inr ⟨a, ?_, rfl⟩
          rw [List.find?_cons_of_neg _ (by simp [hb])]
          exact hfa

lemma find?_updateFirst {cid : Nat} {f : AmqpClientState → AmqpClientState}
    {l : List AmqpClientState} {c0 : AmqpClientState}
    (hid : ∀ x, (f x).id = x.id)
    (hfind : l.find? (fun x => x.id = cid) = some c0) :
    (updateFirst cid f l).find? (fun x => x.id = cid) = some (f c0) := by
  induction l with
  | nil => cases hfind
  | cons b rest ih =>
    unfold updateFirst
    by_cases hb : b.id = cid
    · rw [List.find?_cons_of_pos _ (by simp [hb])] at hfind
      obtain rfl := Option.some_inj.mp hfind
      rw [if_pos hb]
      exact List.find?_cons_of_pos _ (by simp [hid, hb])
    · rw [List.find?_cons_of_neg _ (by simp [hb])] at hfind
      rw [if_neg hb, List.find?_cons_of_neg _ (by simp [hb])]
      exact ih hfind

lemma mem_removeFirst {cid : Nat} {l : List AmqpClientState}
    {c : AmqpClientState} (hc : c ∈ removeFirst cid l) : c ∈ l := by
  induction l with
  | nil => cases hc
  | cons b rest ih =>
    unfold removeFirst at hc
    by_cases hb : b.id = cid
    · rw [if_pos hb] at hc
      exact List.mem_cons_of_mem b hc
    · rw [if_neg hb] at hc
      rcases List.mem_cons.mp hc with rfl | hc
      · exact List.mem_cons_self _ _
      · exact List.mem_cons_of_mem b (ih hc)

lemma getScan_handleInv {budget n : Nat} {cs cs' : List AmqpClientState}
    (h : ∀ c ∈ cs, handleInv c) (hscan : getScan budget n cs = some cs') :
    ∀ c ∈ cs', handleInv c := by
  induction cs generalizing cs' with
  | nil => simp [getScan] at hscan
  | cons a rest ih =>
    unfold getScan at hscan
    by_cases hfit : a.linksCount + n ≤ budget
    · rw [if_pos hfit] at hscan
      obtain rfl := (Option.some_inj.mp hscan).symm
      intro c hc
      rcases List.mem_cons.mp hc with rfl | hc
      · intro _; rfl
      · exact h c (List.mem_cons_of_mem a hc)
    · rw [if_neg hfit] at hscan
      rcases Option.map_eq_some'.mp hscan with ⟨tail, htail, rfl⟩
      intro c hc
      rcases List.mem_cons.mp hc with rfl | hc
      · exact h _ (List.mem_cons_self _ _)
      · exact ih (fun x hx => h x (List.mem_cons_of_mem a hx)) htail c hc

lemma scheduleCleanup_handleInv {m : ClientMgrState} (cid : Nat)
    (h : ∀ c ∈ m.clients, handleInv c)
    (hzero : ∀ c0, m.clients.find? (fun c => c.id = cid) = some c0 →
      c0.linksCount = 0) :
    ∀ c ∈ (scheduleCleanup m cid).clients, handleInv c := by
  unfold scheduleCleanup
  cases hfind : m.clients.find? (fun c => c.id = cid) with
  | none => exact h
  | some c0 =>
    simp only
    by_cases htimer : c0.cleanupTimer = none
    · rw [if_pos htimer]
      intro c hc
      rcases mem_updateFirst hc with hcm | ⟨a, hfa, rfl⟩
      · exact h c hcm
      · rw [hfind] at hfa
        obtain rfl := Option.some_inj.mp hfa
        intro hpos
        exact absurd (hzero _ hfind) (Nat.pos_iff_ne_zero.mp hpos)
    · rw [if_neg htimer]
      exact h

lemma disposeLinks_handleInv {m : ClientMgrState} (cid n : Nat)
    (h : ∀ c ∈ m.clients, handleInv c) :
    ∀ c ∈ (disposeLinks m cid n).clients, handleInv c := by
  unfold disposeLinks
  cases hfind : m.clients.find? (fun c => c.id = cid) with
  | none => exact h
  | some c0 =>
    simp only
    have h1 : ∀ c ∈ (updateFirst cid
        (fun x => { x with linksCount := c0.linksCount - n })
        m.clients), handleInv c := by
      intro c hc
      rcases mem_updateFirst hc with hcm | ⟨a, hfa, rfl⟩
      · exact h c hcm
      · rw [hfind] at hfa
        obtain rfl := Option.some_inj.mp hfa
        intro hpos
        exact h _ (List.mem_of_find?_eq_some hfind)
          (Nat.lt_of_lt_of_le hpos (Nat.sub_le _ _))
    by_cases hz : c0.linksCount - n = 0
    · rw [if_pos hz]
      refine scheduleCleanup_handleInv cid h1 ?_
      intro c' hfind'
      have hup := find?_updateFirst
        (f := fun x => { x with linksCount := c0.linksCount - n })
        (fun x => rfl) hfind
      simp only at hfind'
      rw [hup] at hfind'
      obtain rfl := Option.some_inj.mp hfind'
      exact hz
    · rw [if_neg hz]
      exact h1

lemma fireCleanupTimer_handleInv {m : ClientMgrState} (tid : Nat)
    (h : ∀ c ∈ m.clients, handleInv c) :
    ∀ c ∈ (fireCleanupTimer m tid).clients, handleInv c := by
  unfold fireCleanupTimer
  cases hfind : m.liveTimers.find? (fun p => p.1 = tid) with
  | none => exact h
  | some p =>
    simp only
    cases hfind2 : m.clients.find? (fun c => c.id = p.2) with
    | none => exact h
    | some c0 =>
      simp only
      by_cases hz : c0.linksCount = 0
      · rw [if_pos hz]
        intro c hc
        exact h c (mem_removeFirst hc)
      · rw [if_neg hz]
        exact h

lemma mgrStep_handleInv {budget : Nat} {m : ClientMgrState}
    (h : ∀ c ∈ m.clients, handleInv c) (e : MgrEv) :
    ∀ c ∈ (mgrStep budget m e).clients, handleInv c := by
  cases e with
  | getEv n =>
    simp only [mgrStep, getClient]
    cases hscan : getScan budget n m.clients with
    | some cs => exact getScan_handleInv h hscan
    | none =>
      intro c hc
      rcases List.mem_append.mp hc with hc | hc
      · exact h c hc
      · rcases List.mem_singleton.mp hc with rfl
        intro _; rfl
  | disposeEv cid n => exact disposeLinks_handleInv cid n h
  | fireEv tid => exact fireCleanupTimer_handleInv tid h

/-- C4 (amended): re-acquiring a pooled client does not cancel its pending
idle-cleanup timer (`_getAMQPClient` only nulls the recorded handle, never
calling `clearTimeout`), so a client with positive `linksCount` can coexist
with a running timer; what holds instead is that a client with positive
`linksCount` never has a *recorded* `cleanupTimer` handle in any reachable
state, and a cleanup timer that fires while every pooled client is in use
removes nothing, because `_cleanupClient` re-checks `linksCount === 0`
before disconnecting. -/
theorem clientManager_timer_spec (budget : Nat) (evs : List MgrEv)
    (m : ClientMgrState) (tid : Nat) :
    (∀ c ∈ (mgrRun budget mgrInit evs).clients,
      0 < c.linksCount → c.cleanupTimer = none) ∧
    ((∀ c ∈ m.clients, 0 < c.linksCount) →
      (fireCleanupTimer m tid).clients = m.clients) := by
  constructor
  · suffices hgen : ∀ s : ClientMgrState, (∀ c ∈ s.clients, handleInv c) →
        ∀ c ∈ (mgrRun budget s evs).clients, handleInv c by
      exact hgen mgrInit (by intro c hc; cases hc)
    induction evs with
    | nil => intro s hs; exact hs
    | cons e rest ih =>
      intro s hs
      exact ih (mgrStep budget s e) (mgrStep_handleInv hs e)
  · intro hbusy
    unfold fireCleanupTimer
    cases hfind : m.liveTimers.find? (fun p => p.1 = tid) with
    | none => rfl
    | some p =>
      simp only
      cases hfind2 : m.clients.find? (fun c => c.id = p.2) with
      | none => rfl
      | some c0 =>
        simp only
        rw [if_neg (Nat.pos_iff_ne_zero.mp
          (hbusy c0 (List.mem_of_find?_eq_some hfind2)))]

/-- Witness for `clientManager_timer_spec`: the acquire → release →
acquire trace; its surviving client keeps no recorded handle, and firing
its still-pending timer removes nothing while the client is in use. -/
theorem clientManager_timer_spec_witness :
    ((⟨0, 1, none⟩ : AmqpClientState) ∈
        (mgrRun 255 mgrInit [.getEv 1, .disposeEv 0 1, .getEv 1]).clients ∧
      0 < (1 : Nat) ∧
      (AmqpClientState.cleanupTimer ⟨0, 1, none⟩) = none) ∧
    ((∀ c ∈ (ClientMgrState.mk [⟨0, 1, none⟩] 1 1 [(0, 0)]).clients,
        0 < c.linksCount) ∧
      (fireCleanupTimer (ClientMgrState.mk [⟨0, 1, none⟩] 1 1 [(0, 0)])
          0).clients =
        (ClientMgrState.mk [⟨0, 1, none⟩] 1 1 [(0, 0)]).clients) :=
  ⟨⟨by decide, by decide,
    (clientManager_timer_spec 255 [.getEv 1, .disposeEv 0 1, .getEv 1]
        (ClientMgrState.mk [⟨0, 1, none⟩] 1 1 [(0, 0)]) 0).1
      ⟨0, 1, none⟩ (by decide) (by decide)⟩,
   ⟨by decide,
    (clientManager_timer_spec 255 [.getEv 1, .disposeEv 0 1, .getEv 1]
        (ClientMgrState.mk [⟨0, 1, none⟩] 1 1 [(0, 0)]) 0).2
      (by decide)⟩⟩

/-!
## Lock-renewal scheduling
(`Receiver._scheduleRenewal`, in `src/internalBrokeredMessage.spec.ts`)

Per lock token, `_scheduleRenewal` keeps an entry in two maps:
`renewalTimers` (the armed timer) and `renewalTimeouts` (the deadline,
`Date.now() + config.autoRenewTimeout`, set on first schedule).  A settled
or settle-failed message clears both entries.  Otherwise a timer is set
exactly when the stored deadline exceeds
`Date.now() + serviceBusDeliveryTimeout * renewThreshold`; else both
entries are cleared.  The timer callback renews the lock and re-runs
`_scheduleRenewal`, or clears both entries if the message has settled.
`autoRenewTimeout` may be JavaScript `Infinity`.
-/

/-- A JavaScript time or duration: finite milliseconds or `Infinity`. -/
inductive JsTime where
  | fin (ms : Nat)
  | inf
  deriving DecidableEq, Repr

/-- Embeds `Date.now() + t` for a possibly-infinite `t`. -/
def JsTime.addTo (now : Nat) : JsTime → JsTime
  | .fin ms => .fin (now + ms)
  | .inf => .inf

/-- Embeds the JavaScript comparison `t > n` for a finite `n`. -/
def JsTime.gtNat : JsTime → Nat → Bool
  | .inf, _ => true
  | .fin d, n => decide (n < d)

/-- The per-lock-token view of the `renewalTimers` / `renewalTimeouts`
maps: whether a renewal timer entry is armed for the token, and the
token's stored deadline, if present. -/
structure RenewalState where
  timerArmed : Bool
  deadline : Option JsTime
  deriving DecidableEq, Repr

/-- Embeds `Receiver._scheduleRenewal` for one lock token:
`settledOrFailed` is `message.isSettled || processingState === SettleFailed`,
`autoRenewTimeout` is `config.autoRenewTimeout`, `timeUntilRenewal` is
`serviceBusDeliveryTimeout * renewThreshold`, and `now` is `Date.now()`. -/
def scheduleRenew (autoRenewTimeout : JsTime) (timeUntilRenewal : Nat)
    (settledOrFailed : Bool) (now : Nat) (s : RenewalState) :
    RenewalState :=
  if settledOrFailed then { timerArmed := false, deadline := none }
  else
    let dl := s.deadline.getD (JsTime.addTo now autoRenewTimeout)
    if dl.gtNat (now + timeUntilRenewal) then
      { timerArmed := true, deadline := some dl }
    else { timerArmed := false, deadline := none }

/-- Embeds the `setTimeout` callback armed by `_scheduleRenewal` executing
at time `now`: an unsettled message is renewed and rescheduled via
`_scheduleRenewal` (whose guard re-checks `SettleFailed`); a settled one
has both entries cleared. -/
def renewTimerFire (autoRenewTimeout : JsTime) (timeUntilRenewal : Nat)
    (isSettled settleFailed : Bool) (now : Nat) (s : RenewalState) :
    RenewalState :=
  if isSettled then { timerArmed := false, deadline := none }
  else scheduleRenew autoRenewTimeout timeUntilRenewal settleFailed now s

/-- A run of renewal-timer firings; each event carries the firing time and
whether the message had settled by then (`SettleFailed` not occurring). -/
def renewRun (autoRenewTimeout : JsTime) (timeUntilRenewal : Nat)
    (s : RenewalState) : List (Nat × Bool) → RenewalState
  | [] => s
  | (now, settled) :: rest =>
    renewRun autoRenewTimeout timeUntilRenewal
      (renewTimerFire autoRenewTimeout timeUntilRenewal settled false now s)
      rest

/-- C9: `_scheduleRenewal` arms a renewal timer for an unsettled message
exactly when its deadline (stored, or `now + autoRenewTimeout` on first
schedule) exceeds `now + serviceBusDeliveryTimeout × renewThreshold`, and
drops both map entries otherwise; with `autoRenewTimeout = 0` a first
schedule never arms a timer (so none is ever scheduled), and with
`autoRenewTimeout = Infinity` the first schedule arms, every firing on an
unsettled message re-arms, and a firing after settlement drops the
entry. -/
theorem scheduleRenew_spec (art : JsTime) (tur now : Nat)
    (s : RenewalState) (a : Bool) (evs : List (Nat × Bool)) :
    ((scheduleRenew art tur false now s).timerArmed = true ↔
      (s.deadline.getD (JsTime.addTo now art)).gtNat (now + tur) = true) ∧
    ((s.deadline.getD (JsTime.addTo now art)).gtNat (now + tur) = false →
      scheduleRenew art tur false now s =
        { timerArmed := false, deadline := none }) ∧
    (scheduleRenew (.fin 0) tur false now ⟨a, none⟩ =
      { timerArmed := false, deadline := none }) ∧
    (scheduleRenew .inf tur false now ⟨a, none⟩ =
      { timerArmed := true, deadline := some .inf }) ∧
    ((∀ e ∈ evs, e.2 = false) →
      renewRun .inf tur ⟨true, some .inf⟩ evs = ⟨true, some .inf⟩) ∧
    (∀ tFire : Nat,
      renewRun .inf tur ⟨true, some .inf⟩
        (evs.map (fun e => (e.1, false)) ++ [(tFire, true)]) =
      ⟨false, none⟩) := by
  refine ⟨?_, ?_, ?_, ?_, ?_, ?_⟩
  · simp only [scheduleRenew, if_neg Bool.false_ne_true]
    by_cases hgt :
        (s.deadline.getD (JsTime.addTo now art)).gtNat (now + tur) = true
    · rw [if_pos hgt]
      exact ⟨fun _ => hgt, fun _ => rfl⟩
    · rw [if_neg hgt]
      exact ⟨fun hfalse => absurd hfalse (by simp), fun htrue => absurd htrue hgt⟩
  · intro hle
    simp only [scheduleRenew, if_neg Bool.false_ne_true]
    rw [if_neg (by rw [hle]; simp)]
  · simp only [scheduleRenew, if_neg Bool.false_ne_true, Option.getD_none]
    rw [if_neg (by simp [JsTime.addTo, JsTime.gtNat])]
  · simp [scheduleRenew, JsTime.addTo, JsTime.gtNat]
  · intro hunsettled
    induction evs with
    | nil => rfl
    | cons e rest ih =>
      obtain ⟨tNow, settled⟩ := e
      have hs : settled = false :=
        hunsettled (tNow, settled) (List.mem_cons_self _ _)
      subst hs
      show renewRun .inf tur
        (renewTimerFire .inf tur false false tNow ⟨true, some .inf⟩)
        rest = ⟨true, some .inf⟩
      rw [show renewTimerFire .inf tur false false tNow
          (⟨true, some .inf⟩ : RenewalState) = ⟨true, some .inf⟩ by
        simp [renewTimerFire, scheduleRenew, JsTime.gtNat]]
      exact ih fun e he => hunsettled e (List.mem_cons_of_mem _ he)
  · intro tFire
    induction evs with
    | nil =>
      simp [renewRun, renewTimerFire]
    | cons e rest ih =>
      show renewRun .inf tur
        (renewTimerFire .inf tur false false e.1 ⟨true, some .inf⟩)
        (rest.map (fun e => (e.1, false)) ++ [(tFire, true)]) =
        ⟨false, none⟩
      rw [show renewTimerFire .inf tur false false e.1
          (⟨true, some .inf⟩ : RenewalState) = ⟨true, some .inf⟩ by
        simp [renewTimerFire, scheduleRenew, JsTime.gtNat]]
      exact ih

/-- Witness for `scheduleRenew_spec`: with an infinite auto-renew timeout
two unsettled firings at 22.5 s and 45 s keep the timer armed. -/
theorem scheduleRenew_spec_witness :
    (∀ e ∈ [((22500 : Nat), false), ((45000 : Nat), false)],
      (e : Nat × Bool).2 = false) ∧
    renewRun .inf 22500 ⟨true, some .inf⟩
      [(22500, false), (45000, false)] = ⟨true, some .inf⟩ :=
  ⟨by decide,
   (scheduleRenew_spec .inf 22500 0 ⟨true, some .inf⟩ true
     [(22500, false), (45000, false)]).2.2.2.2.1 (by decide)⟩

end ServiceBus
